import Mathlib

/-!
Verification development for the VTT meeting-transcript processing pipeline
(`src/functions/ProcessVttFile/index.js`).

The JavaScript source is shallowly embedded: strings are `String` (treated as
their `List Char` data), JS `null`/`undefined` string values are `Option
String`, and regular-expression operations are hand-translated scanners that
mirror the backtracking behaviour of the concrete patterns used by the source.
All recursion is structural or fuel-based so every definition evaluates inside
the kernel.  JS whitespace is modelled by its ASCII subset, which is the only
part exercised by the code paths under study.
-/

namespace VttProc

/-- ASCII whitespace as matched by JS `\s` and trimmed by `String.prototype.trim`. -/
def isWs (c : Char) : Bool :=
  c == ' ' || c == '\t' || c == '\n' || c == '\r' || c == Char.ofNat 11 || c == Char.ofNat 12

/-- Characters matched by the regex metacharacter `.` (anything but a line terminator). -/
def isDot (c : Char) : Bool :=
  !(c == '\n' || c == '\r')

/-- Drop leading whitespace, as the left half of `trim`. -/
def trimLeft (l : List Char) : List Char := l.dropWhile isWs

/-- Drop trailing whitespace, as the right half of `trim`. -/
def trimRight (l : List Char) : List Char := (l.reverse.dropWhile isWs).reverse

/-- JS `String.prototype.trim` on character lists. -/
def jsTrimL (l : List Char) : List Char := trimRight (trimLeft l)

/-- JS `String.prototype.trim`. -/
def jsTrim (s : String) : String := ⟨jsTrimL s.data⟩

/-- Split on the regex `\r?\n`, i.e. split at each newline and drop a single
carriage return that immediately precedes it (a final piece keeps a bare
trailing `\r`, exactly as the regex split does). Models
`vttContent.split(/\r?\n/)`. -/
def splitLinesAux : List Char → List Char → List (List Char)
  | [], acc => [acc.reverse]
  | '\n' :: rest, acc =>
      (match acc with
       | '\r' :: acc2 => acc2.reverse
       | _ => acc.reverse) :: splitLinesAux rest []
  | c :: rest, acc => splitLinesAux rest (c :: acc)

/-- Line splitter used by the cue parser. -/
def splitLines (s : String) : List (List Char) := splitLinesAux s.data []

/-- Match `\d{2}:\d{2}:\d{2}` at the head of the list, returning the eight
matched characters and the remainder. -/
def matchHMS : List Char → Option (List Char × List Char)
  | d1 :: d2 :: ':' :: d3 :: d4 :: ':' :: d5 :: d6 :: rest =>
      if d1.isDigit && d2.isDigit && d3.isDigit && d4.isDigit && d5.isDigit && d6.isDigit
      then some ([d1, d2, ':', d3, d4, ':', d5, d6], rest)
      else none
  | _ => none

/-- Consume `\s*-->\s*` at the head of the list. -/
def matchArrow (l : List Char) : Option (List Char) :=
  match l.dropWhile isWs with
  | '-' :: '-' :: '>' :: r => some (r.dropWhile isWs)
  | _ => none

/-- Try the cue time-range pattern
`(\d{2}:\d{2}:\d{2}(?:\.\d{1,3})?)\s*-->\s*(\d{2}:\d{2}:\d{2}(?:\.\d{1,3})?)`
anchored at the head of the list.  On success returns the first timestamp
already normalised to `HH:MM:SS` (`rangeMatch[1].split('.')[0]` in the source).
A fractional part of more than three digits makes the whole pattern fail at
this start position, as regex backtracking does. -/
def matchRangeAt (l : List Char) : Option (List Char) :=
  match matchHMS l with
  | none => none
  | some (ts, rest) =>
      let afterFrac : Option (List Char) :=
        match rest with
        | '.' :: r =>
            let ds := (r.takeWhile Char.isDigit).length
            if 1 ≤ ds && ds ≤ 3 then some (r.drop ds) else none
        | _ => some rest
      match afterFrac with
      | none => none
      | some rest2 =>
          match matchArrow rest2 with
          | none => none
          | some rest3 => (matchHMS rest3).map (fun _ => ts)

/-- Search the line for the time-range pattern at every start position
(leftmost match), as `raw.match(...)` does. -/
def matchRange : List Char → Option (List Char)
  | [] => none
  | c :: rest =>
      match matchRangeAt (c :: rest) with
      | some ts => some ts
      | none => matchRange rest

/-- Does the list start with `</v>`, case-insensitively? -/
def isCloseV : List Char → Bool
  | '<' :: '/' :: c :: '>' :: _ => c == 'v' || c == 'V'
  | _ => false

/-- Largest index `i` with `1 ≤ i ≤ dot-run length` at which the
case-insensitive closing tag `</v>` starts; this is the greedy split point of
`(.+)<\/v>`. -/
def lastDotClose (l : List Char) : Option Nat :=
  let m := (l.takeWhile isDot).length
  ((List.range (m + 1)).filter (fun i => decide (1 ≤ i) && isCloseV (l.drop i))).getLast?

/-- Try `<v\s+([^>]+)>(.+)<\/v>` (case-insensitive) anchored at the head. On
success returns the two capture groups.  After `<v` the segment up to the
first `>` must begin with whitespace and have at least two characters
(`\s+` then `[^>]+`); greedy backtracking leaves at least one character to
the name group. -/
def matchVTagAt (l : List Char) : Option (List Char × List Char) :=
  match l with
  | '<' :: v :: rest =>
      if v == 'v' || v == 'V' then
        let seg := rest.takeWhile (fun c => c != '>')
        if seg.length < rest.length && decide (2 ≤ seg.length) && isWs (seg.headD ' ') then
          let w := (seg.takeWhile isWs).length
          let g1 := seg.drop (min w (seg.length - 1))
          let rest2 := rest.drop (seg.length + 1)
          match lastDotClose rest2 with
          | some i => some (g1, rest2.take i)
          | none => none
        else none
      else none
  | _ => none

/-- Search the whole line for the speaker-tag pattern (leftmost match). -/
def matchVTag : List Char → Option (List Char × List Char)
  | [] => none
  | c :: rest =>
      match matchVTagAt (c :: rest) with
      | some g => some g
      | none => matchVTag rest

/-- Largest `k` with `lo ≤ k ≤ hi`, `k < l.length` and a `.`-matchable
character at position `k`: the greedy-backtracking split point of a `\s*`
or `\s+` run followed by `(.+)`. -/
def lastK (l : List Char) (lo hi : Nat) : Option Nat :=
  ((List.range (hi + 1)).filter
    (fun k => decide (lo ≤ k) && decide (k < l.length) && isDot (l.getD k ' '))).getLast?

/-- Try `^([^:]{1,40}):\s*(.+)` on the line.  Group one is everything before
the first colon (when that prefix has length between 1 and 40); group two is
the rest of the line after the colon with its greedily-consumed whitespace
prefix removed, subject to `(.+)` needing at least one non-terminator
character. -/
def matchColon (l : List Char) : Option (List Char × List Char) :=
  let pre := l.takeWhile (fun c => c != ':')
  let c := pre.length
  if decide (1 ≤ c) && decide (c ≤ 40) && decide (c < l.length) then
    let post := l.drop (c + 1)
    let w := (post.takeWhile isWs).length
    match lastK post 0 w with
    | some k => some (pre, (post.drop k).takeWhile isDot)
    | none => none
  else none

/-- One parsed cue block: `{ timestamp, content, speaker }` in the source. -/
structure Cue where
  timestamp : String
  content : String
  speaker : Option String
deriving DecidableEq, Repr

/-- JS falsiness of a nullable string (`null`, `undefined` or `""`). -/
def jsFalsyOpt : Option String → Bool
  | none => true
  | some s => s.data.isEmpty

/-- Accumulation of one non-blank content line into the open block: the
`<v …>…</v>` tag and the `Name: text` convention each append their trimmed
text capture plus a space and set the speaker (the colon form only when the
speaker is still null or empty); any other line is appended verbatim. -/
def stepContent (b : Cue) (raw : List Char) : Cue :=
  match matchVTag raw with
  | some (g1, g2) =>
      { b with speaker := some ⟨jsTrimL g1⟩,
               content := b.content ++ (⟨jsTrimL g2⟩ : String) ++ " " }
  | none =>
      match matchColon raw with
      | some (g1, g2) =>
          { b with speaker := if jsFalsyOpt b.speaker then some ⟨jsTrimL g1⟩ else b.speaker,
                   content := b.content ++ (⟨jsTrimL g2⟩ : String) ++ " " }
      | none => { b with content := b.content ++ (⟨raw⟩ : String) ++ " " }

/-- The per-line loop of `parseVttTimestamps`: a time-range line pushes the
current block and opens a new one; with no open block everything is skipped;
a blank line closes the block; any other line accumulates via `stepContent`. -/
def parseLines : List (List Char) → Option Cue → List Cue
  | [], cur => cur.toList
  | line :: rest, cur =>
      let raw := jsTrimL line
      match matchRange raw with
      | some ts => cur.toList ++ parseLines rest (some ⟨⟨ts⟩, "", none⟩)
      | none =>
          match cur with
          | none => parseLines rest none
          | some b =>
              if raw.isEmpty then b :: parseLines rest none
              else parseLines rest (some (stepContent b raw))

/-- The function `parseVttTimestamps(vttContent)` of the source.  A falsy (empty or
null-like) input yields `[]`; otherwise the lines are folded by `parseLines`
and the accumulated content of every block is trimmed at the end. -/
def parseVttTimestamps (s : String) : List Cue :=
  if s.data.isEmpty then []
  else (parseLines (splitLines s) none).map (fun b => { b with content := jsTrim b.content })

/-- Split a character list at every occurrence of a separator character,
as JS `String.prototype.split` with a one-character separator. -/
def splitOnCharAux (sep : Char) : List Char → List Char → List (List Char)
  | [], acc => [acc.reverse]
  | c :: rest, acc =>
      if c == sep then acc.reverse :: splitOnCharAux sep rest []
      else splitOnCharAux sep rest (c :: acc)

/-- JS `s.split(sep)` for a single-character separator. -/
def splitOnChar (sep : Char) (l : List Char) : List (List Char) := splitOnCharAux sep l []

/-- Decimal value of a digit string. -/
def decNat (l : List Char) : Nat := l.foldl (fun n c => n * 10 + (c.toNat - 48)) 0

/-- Numeric value in seconds of an `HH:MM:SS` timestamp; used only to state
the chronological-ordering claims about cue timestamps. -/
def hmsToSeconds (s : String) : Nat :=
  match splitOnChar ':' s.data with
  | [h, m, sec] => decNat h * 3600 + decNat m * 60 + decNat sec
  | _ => 0

/-- Start timestamps of the matched time-range lines of the raw input, in the
order the lines occur.  This is the reference sequence for the ordering
claims: the parser emits exactly these timestamps. -/
def rangeStarts (s : String) : List String :=
  (splitLines s).filterMap fun l => (matchRange (jsTrimL l)).map (fun ts => (⟨ts⟩ : String))

/-- Boolean check that adjacent timestamps are in non-decreasing numeric
order. -/
def tsSortedB : List String → Bool
  | [] => true
  | [_] => true
  | a :: b :: rest => decide (hmsToSeconds a ≤ hmsToSeconds b) && tsSortedB (b :: rest)

/-- The cue-ordering invariant: timestamps appear in non-decreasing order. -/
def tsNondecreasing (l : List String) : Prop := tsSortedB l = true

instance (l : List String) : Decidable (tsNondecreasing l) :=
  inferInstanceAs (Decidable (tsSortedB l = true))

/-! Lemmas about trimming. -/

theorem trimRight_eq_rdropWhile (l : List Char) : trimRight l = l.rdropWhile isWs := rfl

theorem dropWhile_head_not (p : Char → Bool) (l : List Char) (c : Char) (t : List Char)
    (h : List.dropWhile p l = c :: t) : p c = false := by
  have h2 : List.dropWhile p (c :: t) = c :: t := by
    rw [← h]; exact List.dropWhile_idempotent p l
  by_contra hp
  rw [Bool.not_eq_false] at hp
  rw [List.dropWhile_cons_of_pos hp] at h2
  have hle := List.IsSuffix.length_le (List.dropWhile_suffix (l := t) p)
  have hlen := congrArg List.length h2
  simp only [List.length_cons] at hlen
  omega

theorem jsTrimL_idem (l : List Char) : jsTrimL (jsTrimL l) = jsTrimL l := by
  unfold jsTrimL trimLeft
  rw [trimRight_eq_rdropWhile, trimRight_eq_rdropWhile]
  have h1 : List.dropWhile isWs ((List.dropWhile isWs l).rdropWhile isWs) =
      (List.dropWhile isWs l).rdropWhile isWs := by
    cases hr : (List.dropWhile isWs l).rdropWhile isWs with
    | nil => rfl
    | cons c r =>
        obtain ⟨t, ht⟩ := List.rdropWhile_prefix isWs (List.dropWhile isWs l)
        rw [hr] at ht
        have hdw : List.dropWhile isWs l = c :: (r ++ t) := by rw [← ht]; rfl
        have hc := dropWhile_head_not isWs l c (r ++ t) hdw
        rw [List.dropWhile_cons_of_neg (by simp [hc])]
  rw [h1, List.rdropWhile_idempotent]

theorem jsTrim_idem (s : String) : jsTrim (jsTrim s) = jsTrim s := by
  unfold jsTrim
  exact congrArg String.mk (jsTrimL_idem s.data)

/-! Structure lemmas about the cue parser. -/

theorem parseLines_no_range (lines : List (List Char))
    (h : ∀ l ∈ lines, matchRange (jsTrimL l) = none) :
    parseLines lines none = [] := by
  induction lines with
  | nil => rfl
  | cons line rest ih =>
      have hl := h line (List.mem_cons_self line rest)
      simp only [parseLines, hl]
      exact ih (fun l hm => h l (List.mem_cons_of_mem line hm))

theorem stepContent_timestamp (b : Cue) (raw : List Char) :
    (stepContent b raw).timestamp = b.timestamp := by
  unfold stepContent
  split
  · rfl
  · split <;> rfl

theorem parseLines_timestamps (lines : List (List Char)) :
    ∀ cur : Option Cue,
      (parseLines lines cur).map Cue.timestamp =
        (cur.map Cue.timestamp).toList ++
          lines.filterMap (fun l => (matchRange (jsTrimL l)).map (fun ts => (⟨ts⟩ : String))) := by
  induction lines with
  | nil => intro cur; cases cur <;> simp [parseLines]
  | cons line rest ih =>
      intro cur
      simp only [parseLines, List.filterMap_cons]
      cases hm : matchRange (jsTrimL line) with
      | some ts =>
          simp only [List.map_append, ih, Option.map_some]
          cases cur <;> simp
      | none =>
          cases cur with
          | none => simpa using ih none
          | some b =>
              dsimp only
              by_cases he : (jsTrimL line).isEmpty
              · rw [if_pos he, List.map_cons, ih none]
                simp
              · rw [if_neg he, ih]
                simp [stepContent_timestamp]

theorem parse_map_timestamps (s : String) :
    (parseVttTimestamps s).map Cue.timestamp = rangeStarts s := by
  unfold parseVttTimestamps rangeStarts
  by_cases hs : s.data.isEmpty
  · have hd : s.data = [] := by simpa using hs
    rw [if_pos hs]
    simp only [splitLines, hd]
    rfl
  · rw [if_neg hs, List.map_map]
    have hcomp :
        (Cue.timestamp ∘ fun b => { b with content := jsTrim b.content }) = Cue.timestamp := rfl
    rw [hcomp, parseLines_timestamps]
    rfl

/-! Claim theorems about the cue parser. -/

/-- C1: evaluation of `parseVttTimestamps` at the claimed scenario input.  The
claim (and the jest tests of the repository itself) expect the first cue to carry
speaker `"John"` with text `"Hello everyone."`, but the speaker-tag regex
`<v\s+([^>]+)>(.+)<\/v>` demands a closing `</v>` that Teams-style cue lines
lack, so the code leaves the tag unstripped and the speaker null. -/
theorem C1_code_eval :
    parseVttTimestamps
        "WEBVTT\n\n00:00:05.000 --> 00:00:10.000\n<v John>Hello everyone.\n\n00:00:10.000 --> 00:00:15.000\nWe will discuss the roadmap." =
      [⟨"00:00:05", "<v John>Hello everyone.", none⟩,
       ⟨"00:00:10", "We will discuss the roadmap.", none⟩] := by
  decide

/-- C2 counterexample: a cue whose accumulated text is empty is still emitted;
a lone time-range line produces one cue with empty text, so the "empty cues
are dropped" invariant is false. -/
theorem C2_counterexample :
    (parseVttTimestamps "00:00:05.000 --> 00:00:10.000").map (fun c => c.content) = [""] := by
  decide

/-- C2 amended: the text of every cue is whitespace-trimmed (trimming it again
changes nothing), but it may be empty — cues with empty accumulated text are
emitted, not dropped. -/
theorem C2_amended (s : String) (c : Cue) (hc : c ∈ parseVttTimestamps s) :
    jsTrim c.content = c.content := by
  unfold parseVttTimestamps at hc
  by_cases hs : s.data.isEmpty
  · rw [if_pos hs] at hc
    cases hc
  · rw [if_neg hs] at hc
    obtain ⟨b, _, rfl⟩ := List.mem_map.mp hc
    exact jsTrim_idem b.content

/-- C2 amended, witness instance. -/
theorem C2_amended_witness :
    (⟨"00:00:05", "Hi", none⟩ : Cue) ∈ parseVttTimestamps "00:00:05.000 --> 00:00:10.000\nHi\n" ∧
      jsTrim (Cue.content ⟨"00:00:05", "Hi", none⟩) = Cue.content ⟨"00:00:05", "Hi", none⟩ :=
  ⟨by decide, C2_amended "00:00:05.000 --> 00:00:10.000\nHi\n" ⟨"00:00:05", "Hi", none⟩ (by decide)⟩

/-- C7: the cue parser degrades instead of failing: the empty (null-like)
input yields the empty sequence, and so does any input none of whose lines
contains a recognisable time-range marker.  The parser is a total function,
so no exception can be raised. -/
theorem C7_degrades :
    parseVttTimestamps "" = [] ∧
      ∀ s : String,
        ((splitLines s).all fun l => (matchRange (jsTrimL l)).isNone) →
          parseVttTimestamps s = [] := by
  refine ⟨rfl, fun s h => ?_⟩
  unfold parseVttTimestamps
  by_cases hs : s.data.isEmpty
  · rw [if_pos hs]
  · rw [if_neg hs]
    have hall : ∀ l ∈ splitLines s, matchRange (jsTrimL l) = none := by
      intro l hl
      have := List.all_eq_true.mp h l hl
      exact Option.isNone_iff_eq_none.mp this
    rw [parseLines_no_range (splitLines s) hall]
    rfl

/-- C7 witness instance: a free-text input with no cue markers parses to the
empty sequence. -/
theorem C7_degrades_witness :
    (((splitLines "hello\nworld").all fun l => (matchRange (jsTrimL l)).isNone) = true) ∧
      parseVttTimestamps "hello\nworld" = [] :=
  ⟨by decide, C7_degrades.2 "hello\nworld" (by decide)⟩

/-- C8 counterexample: the parser emits cues in input order and never sorts,
so an input whose time-range lines are out of order yields a cue sequence
whose start timestamps are not non-decreasing. -/
theorem C8_counterexample :
    ¬ tsNondecreasing
        ((parseVttTimestamps
            "00:00:10.000 --> 00:00:15.000\nB\n\n00:00:05.000 --> 00:00:07.000\nA").map
          Cue.timestamp) := by
  decide

/-- C8 amended: the cue sequence carries exactly the start timestamps of the
matched time-range lines in input order; hence it is non-decreasing whenever
those range starts are non-decreasing in the raw input (as in well-formed
WebVTT), but not for arbitrary inputs. -/
theorem C8_amended (s : String) (h : tsNondecreasing (rangeStarts s)) :
    tsNondecreasing ((parseVttTimestamps s).map Cue.timestamp) := by
  rw [parse_map_timestamps]
  exact h

/-- C8 amended, witness instance. -/
theorem C8_amended_witness :
    tsNondecreasing
      ((parseVttTimestamps
          "00:00:05.000 --> 00:00:10.000\nA\n\n00:00:07.000 --> 00:00:09.000\nB").map
        Cue.timestamp) :=
  C8_amended "00:00:05.000 --> 00:00:10.000\nA\n\n00:00:07.000 --> 00:00:09.000\nB" (by decide)

/-! Deep-link construction. -/

/-- A string equals `""` exactly when its character data is empty. -/
theorem string_eq_empty_iff (s : String) : s = "" ↔ s.data = [] := by
  constructor
  · intro h; subst h; rfl
  · intro h; cases s with
    | mk d => cases h; rfl

theorem string_data_append (a b : String) : (a ++ b).data = a.data ++ b.data := rfl

/-- Appending a `#t=` fragment tail decomposes the character data around the
fragment marker. -/
theorem append_frag_decomp (u x : String) :
    (u ++ "#t=" ++ x).data = u.data ++ "#t=".data ++ x.data := by
  simp [string_data_append]

/-- The function `createVideoLink(timestamp, videoUrl)` of the source: returns `null` when
either argument is falsy, otherwise destructures the timestamp on `:` (a
missing component becomes the text `undefined`, as JS interpolation of an
undefined binding does) and appends the fragment `#t=<HH>h<MM>m<SS>s`.  There
is no host-dependent branch of any kind. -/
def createVideoLink (timestamp videoUrl : String) : Option String :=
  if timestamp.data.isEmpty || videoUrl.data.isEmpty then none
  else
    let parts := splitOnChar ':' timestamp.data
    let h := parts.getD 0 "undefined".data
    let m := parts.getD 1 "undefined".data
    let sec := parts.getD 2 "undefined".data
    some (videoUrl ++ "#t=" ++
      ((⟨h⟩ : String) ++ "h" ++ (⟨m⟩ : String) ++ "m" ++ (⟨sec⟩ : String) ++ "s"))

/-- The timestamp transform of the inline key-point link construction:
`ts.replace(/:/g, 'h').replace(/h(\d{2})$/, 'm$1s')`. -/
def tsFragment (ts : String) : String :=
  let l := ts.data.map (fun c => if c == ':' then 'h' else c)
  ⟨match l.reverse with
   | d2 :: d1 :: 'h' :: rest =>
       if d1.isDigit && d2.isDigit then ('s' :: d2 :: d1 :: 'm' :: rest).reverse else l
   | _ => l⟩

/-- The inline key-point deep link `videoUrl + '#t=' + tsFragment ts` built at
the enrichment and fallback sites of `processSingleVttFile`. -/
def inlineVideoLink (videoUrl ts : String) : String := videoUrl ++ "#t=" ++ tsFragment ts

/-- C3 counterexample: with an empty timestamp the builder returns `null`
(`none`), not the empty string; and for a viewer URL in the collaboration
suite domain family the link still uses the `#t=<HH>h<MM>m<SS>s`
fragment — the produced URL contains no `?` at all, so no `t=` query
parameter exists.  Both halves of the claim fail on the code. -/
theorem C3_counterexample :
    createVideoLink "" "https://contoso.sharepoint.com/stream" = none ∧
      createVideoLink "00:01:05" "https://contoso.sharepoint.com/stream" =
        some "https://contoso.sharepoint.com/stream#t=00h01m05s" ∧
      Char.ofNat 63 ∉ "https://contoso.sharepoint.com/stream#t=00h01m05s".data := by
  decide

/-- C3 amended: the builder returns `null` (not the empty string) exactly when
either argument is empty; otherwise, for every host alike, the result is the
base URL with a non-empty `#t=` fragment appended — the inline key-point
construction produces the same `#t=` shape. -/
theorem C3_amended (ts url : String) :
    (createVideoLink ts url = none ↔ ts = "" ∨ url = "") ∧
      (∀ r : String, createVideoLink ts url = some r →
        r.data ≠ [] ∧ ∃ pre post : List Char, r.data = pre ++ "#t=".data ++ post) ∧
      (∃ pre post : List Char, (inlineVideoLink url ts).data = pre ++ "#t=".data ++ post) := by
  refine ⟨?_, ?_, ?_⟩
  · unfold createVideoLink
    by_cases h : (ts.data.isEmpty || url.data.isEmpty) = true
    · rw [if_pos h]
      simp only [List.isEmpty_iff, Bool.or_eq_true] at h
      simp [string_eq_empty_iff, h]
    · rw [if_neg h]
      simp only [List.isEmpty_iff, Bool.or_eq_true] at h
      push_neg at h
      simp [string_eq_empty_iff, h.1, h.2]
  · intro r hr
    unfold createVideoLink at hr
    by_cases h : (ts.data.isEmpty || url.data.isEmpty) = true
    · rw [if_pos h] at hr; cases hr
    · rw [if_neg h] at hr
      simp only [Option.some.injEq] at hr
      subst hr
      constructor
      · rw [append_frag_decomp]
        simp
      · exact ⟨_, _, append_frag_decomp _ _⟩
  · refine ⟨url.data, (tsFragment ts).data, ?_⟩
    unfold inlineVideoLink
    exact append_frag_decomp url (tsFragment ts)

/-- C3 amended, witness instance. -/
theorem C3_amended_witness :
    (createVideoLink "" "https://example.com/v" = none ↔
        ("" : String) = "" ∨ ("https://example.com/v" : String) = "") ∧
      (("https://example.com/v#t=00h01m05s" : String).data ≠ [] ∧
        ∃ pre post : List Char,
          ("https://example.com/v#t=00h01m05s" : String).data = pre ++ "#t=".data ++ post) :=
  ⟨(C3_amended "" "https://example.com/v").1,
   (C3_amended "00:01:05" "https://example.com/v").2.1 "https://example.com/v#t=00h01m05s" (by decide)⟩

/-! Metadata resolution. -/

/-- Try `NOTE\s+(.+)` anchored at the head: the literal `NOTE`, at least one
whitespace character, then the rest of the line; greedy backtracking hands a
trailing all-whitespace remainder back to the capture one character at a
time. -/
def matchNoteAt (l : List Char) : Option (List Char) :=
  match l with
  | 'N' :: 'O' :: 'T' :: 'E' :: post =>
      let w := (post.takeWhile isWs).length
      if w = 0 then none
      else
        match lastK post 1 w with
        | some k => some ((post.drop k).takeWhile isDot)
        | none => none
  | _ => none

/-- Search the whole content for the `NOTE` marker line (leftmost match). -/
def matchNote : List Char → Option (List Char)
  | [] => none
  | c :: rest =>
      match matchNoteAt (c :: rest) with
      | some g => some g
      | none => matchNote rest

/-- Does the list start with the given pattern? -/
def startsWithL : List Char → List Char → Bool
  | _, [] => true
  | [], _ :: _ => false
  | c :: cs, p :: ps => c == p && startsWithL cs ps

/-- JS `String.prototype.replace` with a plain-string pattern: replace the
first occurrence only. -/
def replaceFirstL (pat rep : List Char) : List Char → List Char
  | [] => []
  | c :: rest =>
      if startsWithL (c :: rest) pat && !pat.isEmpty then rep ++ (c :: rest).drop pat.length
      else c :: replaceFirstL pat rep rest

/-- A regex `\w` character. -/
def isWordChar (c : Char) : Bool :=
  ('a' ≤ c && c ≤ 'z') || ('A' ≤ c && c ≤ 'Z') || c.isDigit || c == '_'

/-- Uppercase every `\b\w` position (a word character not preceded by a word
character), as `replace(/\b\w/g, l => l.toUpperCase())`. -/
def upWordStarts : List Char → Bool → List Char
  | [], _ => []
  | c :: rest, prevW =>
      (if isWordChar c && !prevW then c.toUpper else c) :: upWordStarts rest (isWordChar c)

/-- Strip the first `.vtt` occurrence from a file name. -/
def stripVttName (name : String) : String := ⟨replaceFirstL ".vtt".data [] name.data⟩

/-- Fallback title from the file name: strip `.vtt`, turn `-`/`_` into spaces
and capitalise each word start. -/
def humanizeName (name : String) : String :=
  ⟨upWordStarts
    ((replaceFirstL ".vtt".data [] name.data).map
      (fun c => if c == '-' || c == '_' then ' ' else c)) false⟩

/-- The literal placeholder viewer URL baked into the source. -/
def placeholderUrl : String := "https://yourtenant.sharepoint.com/video-placeholder"

/-- Result record of `extractMeetingMetadata`. -/
structure MeetingMetadata where
  title : String
  videoUrl : String
  date : String
  filename : String
deriving DecidableEq, Repr

/-- The function `extractMeetingMetadata(vttContent, fileMetadata,
sharepointSiteUrl)` of the source.  `fileMetadata` enters only through its `name`, modelled
by `fileName`; the call to `new Date().toISOString()` is injected as the
`todayIso` parameter, of which the code keeps the part before `T`. -/
def extractMeetingMetadata (vttContent fileName sharepointSiteUrl todayIso : String) :
    MeetingMetadata where
  title :=
    match matchNote vttContent.data with
    | some g1 => (⟨jsTrimL g1⟩ : String)
    | none => humanizeName fileName
  videoUrl :=
    if sharepointSiteUrl.data.isEmpty then placeholderUrl
    else sharepointSiteUrl ++ "/Shared%20Documents/" ++ stripVttName fileName
  date := ⟨(splitOnChar 'T' todayIso.data).getD 0 []⟩
  filename := fileName

/-- Characterisation of the resolved viewer URL in terms of the configured
site URL. -/
theorem extract_videoUrl (content name site today : String) :
    (extractMeetingMetadata content name site today).videoUrl =
      if site = "" then placeholderUrl
      else site ++ "/Shared%20Documents/" ++ stripVttName name := by
  show (if site.data.isEmpty then placeholderUrl
        else site ++ "/Shared%20Documents/" ++ stripVttName name) = _
  by_cases hs : site = ""
  · have hd : site.data.isEmpty = true :=
      List.isEmpty_iff.mpr ((string_eq_empty_iff site).mp hs)
    rw [if_pos hd, if_pos hs]
  · have hd : ¬ site.data.isEmpty = true := by
      rw [List.isEmpty_iff]
      intro h
      exact hs ((string_eq_empty_iff site).mpr h)
    rw [if_neg hd, if_neg hs]

/-- A SharePoint file metadata record as read by `getVideoUrlFromMetadata`:
only the four probed properties matter; an absent property is `none`. -/
structure SPFileMeta where
  VideoURL : Option String
  videoUrl : Option String
  video_url : Option String
  webUrl : Option String
deriving DecidableEq, Repr

/-- JS truthiness of a nullable string property. -/
def jsTruthyS : Option String → Bool
  | none => false
  | some s => !s.data.isEmpty

/-- The function `getVideoUrlFromMetadata(fileMetadata)` of the source: the first truthy
property among `VideoURL`, `videoUrl`, `video_url`, `webUrl`, else the
literal placeholder URL. -/
def getVideoUrlFromMetadata (fm : SPFileMeta) : String :=
  if jsTruthyS fm.VideoURL then fm.VideoURL.getD ""
  else if jsTruthyS fm.videoUrl then fm.videoUrl.getD ""
  else if jsTruthyS fm.video_url then fm.video_url.getD ""
  else if jsTruthyS fm.webUrl then fm.webUrl.getD ""
  else placeholderUrl

/-- C4 counterexample: with no configured site URL the resolver returns the
literal placeholder domain (exactly what the test of the repository itself expects),
contradicting the claim that the result is "never a literal placeholder
domain" and that the remaining fallback is the empty string. -/
theorem C4_counterexample :
    (extractMeetingMetadata "WEBVTT\n\nSome content" "test.vtt" "" "2026-10-11T00:00:00.000Z").videoUrl =
        placeholderUrl ∧
      placeholderUrl ≠ "" := by
  decide

theorem truthy_getD_ne_empty (o : Option String) (h : jsTruthyS o = true) : o.getD "" ≠ "" := by
  cases o with
  | none => simp [jsTruthyS] at h
  | some s =>
      simp only [jsTruthyS, Bool.not_eq_true'] at h
      simp only [Option.getD_some]
      rw [Ne, string_eq_empty_iff]
      intro hd
      rw [hd] at h
      simp at h

/-- C4 amended: the resolved viewer URL is never the empty string; it is the
site-base construction when a site URL is configured and the literal
placeholder URL otherwise; likewise `getVideoUrlFromMetadata` returns the
first truthy supplied property or the placeholder, never the empty string. -/
theorem C4_amended (content name site today : String) (fm : SPFileMeta) :
    ((extractMeetingMetadata content name site today).videoUrl ≠ "" ∧
      (if site = "" then
        (extractMeetingMetadata content name site today).videoUrl = placeholderUrl
       else
        (extractMeetingMetadata content name site today).videoUrl =
          site ++ "/Shared%20Documents/" ++ stripVttName name)) ∧
    (getVideoUrlFromMetadata fm ≠ "" ∧
      (getVideoUrlFromMetadata fm = fm.VideoURL.getD "" ∨
        getVideoUrlFromMetadata fm = fm.videoUrl.getD "" ∨
        getVideoUrlFromMetadata fm = fm.video_url.getD "" ∨
        getVideoUrlFromMetadata fm = fm.webUrl.getD "" ∨
        getVideoUrlFromMetadata fm = placeholderUrl)) := by
  constructor
  · rw [extract_videoUrl]
    by_cases hs : site = ""
    · rw [if_pos hs, if_pos hs]
      exact ⟨by decide, rfl⟩
    · rw [if_neg hs, if_neg hs]
      refine ⟨?_, rfl⟩
      rw [Ne, string_eq_empty_iff]
      simp [string_data_append]
  · unfold getVideoUrlFromMetadata
    split_ifs with h1 h2 h3 h4
    · exact ⟨truthy_getD_ne_empty _ h1, Or.inl rfl⟩
    · exact ⟨truthy_getD_ne_empty _ h2, Or.inr (Or.inl rfl)⟩
    · exact ⟨truthy_getD_ne_empty _ h3, Or.inr (Or.inr (Or.inl rfl))⟩
    · exact ⟨truthy_getD_ne_empty _ h4, Or.inr (Or.inr (Or.inr (Or.inl rfl)))⟩
    · exact ⟨by decide, Or.inr (Or.inr (Or.inr (Or.inr rfl)))⟩

/-- C4 amended, witness instance. -/
theorem C4_amended_witness :
    (extractMeetingMetadata "WEBVTT" "team-sync.vtt" "https://contoso.sharepoint.com/sites/t"
          "2026-10-11T00:00:00.000Z").videoUrl ≠ "" ∧
      getVideoUrlFromMetadata ⟨none, none, none, some "https://contoso.sharepoint.com/x"⟩ ≠ "" :=
  ⟨((C4_amended "WEBVTT" "team-sync.vtt" "https://contoso.sharepoint.com/sites/t"
      "2026-10-11T00:00:00.000Z" ⟨none, none, none, none⟩).1).1,
   ((C4_amended "WEBVTT" "team-sync.vtt" "https://contoso.sharepoint.com/sites/t"
      "2026-10-11T00:00:00.000Z" ⟨none, none, none, some "https://contoso.sharepoint.com/x"⟩).2).1⟩

/-! JSON values and a model of `JSON.parse`. -/

/-- Named characters used by the scanners below. -/
def lbrace : Char := Char.ofNat 123

def rbrace : Char := Char.ofNat 125

def btick : Char := Char.ofNat 96

/-- A JSON value as produced by `JSON.parse`; numbers keep their lexeme. -/
inductive Json where
  | null
  | bool (b : Bool)
  | num (lexeme : String)
  | str (s : String)
  | arr (elems : List Json)
  | obj (fields : List (String × Json))
deriving Repr

/-- JSON whitespace accepted between tokens by `JSON.parse`. -/
def isJsonWs (c : Char) : Bool := c == ' ' || c == '\t' || c == '\n' || c == '\r'

def skipWsJ (l : List Char) : List Char := l.dropWhile isJsonWs

def hexVal (c : Char) : Option Nat :=
  if '0' ≤ c && c ≤ '9' then some (c.toNat - 48)
  else if 'a' ≤ c && c ≤ 'f' then some (c.toNat - 87)
  else if 'A' ≤ c && c ≤ 'F' then some (c.toNat - 55)
  else none

/-- Parse the remainder of a JSON string literal after the opening quote,
handling the escape sequences of the JSON grammar and rejecting raw control
characters; returns the decoded characters and the rest of the input. -/
def parseJStringRest : List Char → Option (List Char × List Char)
  | [] => none
  | '"' :: rest => some ([], rest)
  | '\\' :: e :: rest =>
      (match e with
       | '"' => (parseJStringRest rest).map (fun p => ('"' :: p.1, p.2))
       | '\\' => (parseJStringRest rest).map (fun p => ('\\' :: p.1, p.2))
       | '/' => (parseJStringRest rest).map (fun p => ('/' :: p.1, p.2))
       | 'b' => (parseJStringRest rest).map (fun p => (Char.ofNat 8 :: p.1, p.2))
       | 'f' => (parseJStringRest rest).map (fun p => (Char.ofNat 12 :: p.1, p.2))
       | 'n' => (parseJStringRest rest).map (fun p => ('\n' :: p.1, p.2))
       | 'r' => (parseJStringRest rest).map (fun p => ('\r' :: p.1, p.2))
       | 't' => (parseJStringRest rest).map (fun p => ('\t' :: p.1, p.2))
       | 'u' =>
           match rest with
           | h1 :: h2 :: h3 :: h4 :: rest2 =>
               match hexVal h1, hexVal h2, hexVal h3, hexVal h4 with
               | some a, some b, some c, some d =>
                   (parseJStringRest rest2).map
                     (fun p => (Char.ofNat (a * 4096 + b * 256 + c * 16 + d) :: p.1, p.2))
               | _, _, _, _ => none
           | _ => none
       | _ => none)
  | c :: rest =>
      if c.toNat < 32 then none
      else (parseJStringRest rest).map (fun p => (c :: p.1, p.2))

def lexInt : List Char → Option (List Char × List Char)
  | '0' :: r => some (['0'], r)
  | c :: r =>
      if c.isDigit then some (c :: r.takeWhile Char.isDigit, r.dropWhile Char.isDigit)
      else none
  | [] => none

def lexFrac : List Char → Option (List Char × List Char)
  | '.' :: r =>
      let ds := r.takeWhile Char.isDigit
      if ds.isEmpty then none else some ('.' :: ds, r.drop ds.length)
  | l => some ([], l)

def lexExp : List Char → Option (List Char × List Char)
  | c :: r =>
      if c == 'e' || c == 'E' then
        let sr : List Char × List Char :=
          match r with
          | '+' :: r2 => (['+'], r2)
          | '-' :: r2 => (['-'], r2)
          | _ => ([], r)
        let ds := sr.2.takeWhile Char.isDigit
        if ds.isEmpty then none else some (c :: sr.1 ++ ds, sr.2.drop ds.length)
      else some ([], c :: r)
  | [] => some ([], [])

/-- Lex a JSON number `-?(0|[1-9][0-9]*)(\.[0-9]+)?([eE][+-]?[0-9]+)?`. -/
def lexJNumber (l : List Char) : Option (List Char × List Char) := do
  let sg : List Char × List Char :=
    match l with
    | '-' :: r => (['-'], r)
    | _ => ([], l)
  let (ip, l2) ← lexInt sg.2
  let (fp, l3) ← lexFrac l2
  let (ep, l4) ← lexExp l3
  some (sg.1 ++ ip ++ fp ++ ep, l4)

mutual

/-- Fuel-bounded recursive-descent JSON value parser. -/
def parseJValue : Nat → List Char → Option (Json × List Char)
  | 0, _ => none
  | fuel + 1, l =>
      match skipWsJ l with
      | 't' :: 'r' :: 'u' :: 'e' :: r => some (.bool true, r)
      | 'f' :: 'a' :: 'l' :: 's' :: 'e' :: r => some (.bool false, r)
      | 'n' :: 'u' :: 'l' :: 'l' :: r => some (.null, r)
      | '"' :: r => (parseJStringRest r).map (fun p => (.str ⟨p.1⟩, p.2))
      | '[' :: r => parseJArrBody fuel (skipWsJ r)
      | c :: r =>
          if c == lbrace then parseJObjBody fuel (skipWsJ r)
          else (lexJNumber (c :: r)).map (fun p => (.num ⟨p.1⟩, p.2))
      | [] => none

def parseJArrBody : Nat → List Char → Option (Json × List Char)
  | 0, _ => none
  | fuel + 1, l =>
      match l with
      | ']' :: r => some (.arr [], r)
      | _ => (parseJElems fuel l).map (fun p => (.arr p.1, p.2))

def parseJElems : Nat → List Char → Option (List Json × List Char)
  | 0, _ => none
  | fuel + 1, l => do
      let (v, r) ← parseJValue fuel l
      match skipWsJ r with
      | ',' :: r2 => (parseJElems fuel r2).map (fun p => (v :: p.1, p.2))
      | ']' :: r2 => some ([v], r2)
      | _ => none

def parseJObjBody : Nat → List Char → Option (Json × List Char)
  | 0, _ => none
  | fuel + 1, l =>
      match l with
      | c :: _ =>
          if c == rbrace then some (.obj [], l.drop 1)
          else (parseJMembers fuel l).map (fun p => (.obj p.1, p.2))
      | [] => none

def parseJMembers : Nat → List Char → Option (List (String × Json) × List Char)
  | 0, _ => none
  | fuel + 1, l =>
      match skipWsJ l with
      | '"' :: r => do
          let (kcs, r2) ← parseJStringRest r
          match skipWsJ r2 with
          | ':' :: r3 => do
              let (v, r4) ← parseJValue fuel r3
              match skipWsJ r4 with
              | ',' :: r5 => (parseJMembers fuel r5).map (fun p => ((⟨kcs⟩, v) :: p.1, p.2))
              | c :: r5 => if c == rbrace then some ([(⟨kcs⟩, v)], r5) else none
              | [] => none
          | _ => none
      | _ => none

end

/-- Model of `JSON.parse(s)`: parse one value and require only trailing
whitespace after it; any failure is `none` (a thrown `SyntaxError`).  The fuel
`3 * length + 8` strictly dominates the recursion depth of any input, so the
bound is never the cause of a `none`. -/
def jsonParse (s : String) : Option Json :=
  match parseJValue (3 * s.data.length + 8) s.data with
  | some (v, rest) => if (skipWsJ rest).isEmpty then some v else none
  | none => none

/-- Strip one leading code fence: `replace(/^```(?:json)?\s*/i, '')`. -/
def stripLeadFence (l : List Char) : List Char :=
  match l with
  | a :: b :: c :: rest =>
      if a == btick && b == btick && c == btick then
        let rest2 :=
          match rest with
          | j :: s :: o :: n :: r =>
              if (j == 'j' || j == 'J') && (s == 's' || s == 'S') &&
                  (o == 'o' || o == 'O') && (n == 'n' || n == 'N') then r
              else rest
          | _ => rest
        rest2.dropWhile isWs
      else l
  | _ => l

/-- Strip one trailing code fence: `replace(/```$/i, '')`. -/
def stripTrailFence (l : List Char) : List Char :=
  match l.reverse with
  | a :: b :: c :: rest =>
      if a == btick && b == btick && c == btick then rest.reverse else l
  | _ => l

def firstIdxOf (l : List Char) (c : Char) : Option Nat := l.findIdx? (· == c)

def lastIdxOf (l : List Char) (c : Char) : Option Nat :=
  (l.reverse.findIdx? (· == c)).map (fun i => l.length - 1 - i)

/-- The `cleaned` string of `safeParseModelJson`: trim, strip the leading and
trailing fences, trim again. -/
def cleanedOf (t : String) : List Char :=
  jsTrimL (stripTrailFence (stripLeadFence (jsTrimL t.data)))

/-- The function `safeParseModelJson(text)` of the source: falsy input gives `{}`; else the
fence-stripped text is decoded; on failure the span from the first `{` to the
last `}` is decoded; on failure `{}`. -/
def safeParseModelJson (text : Option String) : Json :=
  match text with
  | none => .obj []
  | some t =>
      if t.data.isEmpty then .obj []
      else
        match jsonParse ⟨cleanedOf t⟩ with
        | some v => v
        | none =>
            match firstIdxOf (cleanedOf t) lbrace, lastIdxOf (cleanedOf t) rbrace with
            | some s, some e =>
                if s < e then
                  match jsonParse ⟨((cleanedOf t).drop s).take (e + 1 - s)⟩ with
                  | some v => v
                  | none => .obj []
                else .obj []
            | some _, none => .obj []
            | none, _ => .obj []

/-- The first-`{`-to-last-`}` span of a character list, when it is
non-degenerate. -/
def braceSpan (l : List Char) : Option (List Char) :=
  match firstIdxOf l lbrace, lastIdxOf l rbrace with
  | some s, some e => if s < e then some ((l.drop s).take (e + 1 - s)) else none
  | _, _ => none

/-- The decode chain exactly as the claim words it: the decode of the
fence-stripped input if it succeeds, else the decode of the first-`{`-to-
last-`}` span if it succeeds, else the empty object. -/
def safeParseSpecChain (text : Option String) : Json :=
  match text with
  | none => .obj []
  | some t =>
      if t.data.isEmpty then .obj []
      else
        match jsonParse ⟨cleanedOf t⟩ with
        | some v => v
        | none =>
            match braceSpan (cleanedOf t) with
            | some seg => (jsonParse ⟨seg⟩).getD (.obj [])
            | none => .obj []

/-- Is the JSON value an object? -/
def isObjJson : Json → Bool
  | .obj _ => true
  | _ => false

/-- C10 counterexample: the decoder can return a non-object — the input
`"42"` decodes to the JSON number 42, so "always returns an object" is
false. -/
theorem C10_counterexample :
    safeParseModelJson (some "42") = Json.num "42" ∧
      isObjJson (safeParseModelJson (some "42")) = false :=
  ⟨rfl, rfl⟩

/-- C10 amended: the decoder is total (never throws) and returns exactly the
claimed chain — the decode of the fence-stripped input if that succeeds, else
the decode of the first-`{`-to-last-`}` span if that succeeds, else the empty
object — but the returned JSON value need not be an object. -/
theorem C10_amended (t : Option String) : safeParseModelJson t = safeParseSpecChain t := by
  cases t with
  | none => rfl
  | some s =>
      unfold safeParseModelJson safeParseSpecChain braceSpan
      dsimp only
      by_cases he : s.data.isEmpty
      · rw [if_pos he, if_pos he]
      · rw [if_neg he, if_neg he]
        cases jsonParse ⟨cleanedOf s⟩ with
        | some v => rfl
        | none =>
            cases hf : firstIdxOf (cleanedOf s) lbrace with
            | none => rfl
            | some i =>
                cases hl : lastIdxOf (cleanedOf s) rbrace with
                | none => rfl
                | some e =>
                    dsimp only
                    by_cases hlt : i < e
                    · rw [if_pos hlt, if_pos hlt]
                      dsimp only
                      cases jsonParse ⟨((cleanedOf s).drop i).take (e + 1 - i)⟩ <;> rfl
                    · rw [if_neg hlt, if_neg hlt]

/-! Fallback summary and key-point extraction. -/

/-- Join pieces with a separator, as JS `Array.prototype.join`. -/
def joinWith (sep : List Char) : List (List Char) → List Char
  | [] => []
  | [x] => x
  | x :: y :: rest => x ++ sep ++ joinWith sep (y :: rest)

/-- Fuel-bounded split on `/\r?\n+/`: an optional carriage return followed by
a maximal run of newlines separates pieces. -/
def splitNlPlusF : Nat → List Char → List Char → List (List Char)
  | 0, l, acc => [acc.reverse ++ l]
  | fuel + 1, l, acc =>
      match l with
      | [] => [acc.reverse]
      | '\r' :: '\n' :: rest => acc.reverse :: splitNlPlusF fuel (rest.dropWhile (· == '\n')) []
      | '\n' :: rest => acc.reverse :: splitNlPlusF fuel (rest.dropWhile (· == '\n')) []
      | c :: rest => splitNlPlusF fuel rest (c :: acc)

def splitNlPlus (l : List Char) : List (List Char) := splitNlPlusF (l.length + 1) l []

/-- Fuel-bounded split on the lookbehind pattern `/(?<=[.!?])\s+/`: a
whitespace run whose immediately preceding character is `.`, `!` or `?`
separates pieces. -/
def splitSentF : Nat → List Char → Option Char → List Char → List (List Char)
  | 0, l, _, acc => [acc.reverse ++ l]
  | fuel + 1, l, prev, acc =>
      match l with
      | [] => [acc.reverse]
      | c :: rest =>
          if isWs c && (prev == some '.' || prev == some '!' || prev == some '?') then
            acc.reverse :: splitSentF fuel (rest.dropWhile isWs) none []
          else splitSentF fuel rest (some c) (c :: acc)

def splitSentences (l : List Char) : List (List Char) := splitSentF (l.length + 1) l none []

/-- Fuel-bounded `replace(/\s+/g, ' ')`. -/
def collapseWsF : Nat → List Char → List Char
  | 0, l => l
  | _ + 1, [] => []
  | fuel + 1, c :: rest =>
      if isWs c then ' ' :: collapseWsF fuel (rest.dropWhile isWs)
      else c :: collapseWsF fuel rest

def collapseWs (l : List Char) : List Char := collapseWsF (l.length + 1) l

/-- Fuel-bounded `replace(/<[^>]+>/g, '')`: drop each span from a `<` to the
first following `>` with at least one character in between. -/
def stripAngleF : Nat → List Char → List Char
  | 0, l => l
  | _ + 1, [] => []
  | fuel + 1, '<' :: rest =>
      let seg := rest.takeWhile (fun c => c != '>')
      if decide (1 ≤ seg.length) && decide (seg.length < rest.length) then
        stripAngleF fuel (rest.drop (seg.length + 1))
      else '<' :: stripAngleF fuel rest
  | fuel + 1, c :: rest => c :: stripAngleF fuel rest

def stripAngleTags (l : List Char) : List Char := stripAngleF (l.length + 1) l

/-- Match `^\s*\d{2}:\d{2}:\d{2}\s*` at this position, returning the match
length. -/
def matchLeadTsAt (l : List Char) : Option Nat :=
  let w1 := (l.takeWhile isWs).length
  match matchHMS (l.drop w1) with
  | none => none
  | some (_, rest) => some (w1 + 8 + (rest.takeWhile isWs).length)

/-- Fuel-bounded `replace(/^\s*\d{2}:\d{2}:\d{2}\s*/gm, '')`: at every line
start (of the original string) a leading whitespace-timestamp-whitespace run
is removed; scanning resumes after each removed span. -/
def stripLeadTsF : Nat → List Char → Bool → List Char
  | 0, l, _ => l
  | _ + 1, [], _ => []
  | fuel + 1, c :: rest, atStart =>
      if atStart then
        match matchLeadTsAt (c :: rest) with
        | some n =>
            stripLeadTsF fuel ((c :: rest).drop n) (((c :: rest).take n).getLast? == some '\n')
        | none => c :: stripLeadTsF fuel rest (c == '\n')
      else c :: stripLeadTsF fuel rest (c == '\n')

def stripLineLeadTs (l : List Char) : List Char := stripLeadTsF (l.length + 1) l true

/-- The `picked` sentence join of `generateFallbackSummary`: the first three
non-empty sentences of the cleaned text joined by single spaces. -/
def fallbackPicked (t : String) : List Char :=
  joinWith [' ']
    (((splitSentences (jsTrimL (collapseWs (stripAngleTags (stripLineLeadTs t.data))))).filter
      (fun s => decide (0 < s.length))).take 3)

/-- The function `generateFallbackSummary(text)` of the source. -/
def generateFallbackSummary (text : String) : String :=
  if text.data.isEmpty then "Meeting transcript processed. Key topics extracted."
  else if (fallbackPicked text).isEmpty then "Meeting transcript processed. Key topics extracted."
  else ⟨fallbackPicked text⟩

/-- Case-insensitive pattern-at-head check. -/
def startsWithCI : List Char → List Char → Bool
  | _, [] => true
  | [], _ :: _ => false
  | c :: cs, p :: ps => (c.toLower == p.toLower) && startsWithCI cs ps

/-- Case-insensitive substring search, as `/pat/i.test(s)`. -/
def containsCI : List Char → List Char → Bool
  | [], pat => pat.isEmpty
  | c :: rest, pat => startsWithCI (c :: rest) pat || containsCI rest pat

/-- Bullet markers recognised by the fallback key-point extractor. -/
def isBulletChar (c : Char) : Bool := c == '-' || c == '•' || c == '–'

/-- JS `Array.from(new Set(xs))`: deduplicate keeping first occurrences. -/
def dedupFirst (l : List String) : List String :=
  l.foldl (fun acc s => if acc.contains s then acc else acc ++ [s]) []

/-- The sentence filter of the fallback key-point extractor:
`/^[A-Z][a-z]+/.test(s) || /action|decision|important|key/i.test(s)`. -/
def sentenceKeep (s : String) : Bool :=
  (match s.data with
   | c0 :: c1 :: _ => ('A' ≤ c0 && c0 ≤ 'Z') && ('a' ≤ c1 && c1 ≤ 'z')
   | [c0] => ('A' ≤ c0 && c0 ≤ 'Z') && false
   | [] => false) ||
  containsCI s.data "action".data || containsCI s.data "decision".data ||
  containsCI s.data "important".data || containsCI s.data "key".data

/-- The function `deriveKeyPointsFallbackFromText(text)` of the source: deduplicated bullet
lines when at least three exist, else the first eight kept sentences. -/
def deriveKeyPointsFallbackFromText (text : String) : List String :=
  if text.data.isEmpty then []
  else
    let bullets := dedupFirst
      ((((splitNlPlus text.data).filter
            (fun l => isBulletChar ((l.dropWhile isWs).headD ' '))).map
          (fun l => (⟨jsTrimL (((l.dropWhile isWs).drop 1).dropWhile isWs)⟩ : String))).filter
        (fun s => !s.data.isEmpty))
    if 3 ≤ bullets.length then bullets.take 12
    else
      (((splitSentences text.data).map (fun s => (⟨jsTrimL s⟩ : String))).filter
        sentenceKeep).take 8

/-! The summarization step of `processSingleVttFile` (after the external
call), modelled over the outcome of the call. -/

/-- OpenAI token usage counters; absent usage reads as zeros via `|| 0`. -/
structure Usage where
  prompt : Nat
  completion : Nat
  total : Nat
deriving DecidableEq, Repr

def zeroUsage : Usage := ⟨0, 0, 0⟩

/-- Last-occurrence field lookup, matching the last-wins duplicate-key
behaviour of `JSON.parse`. -/
def objGet (fields : List (String × Json)) (k : String) : Option Json :=
  ((fields.filter (fun p => p.1 == k)).getLast?).map (fun p => p.2)

def jsonFieldOf (j : Json) (k : String) : Option Json :=
  match j with
  | .obj fs => objGet fs k
  | _ => none

/-- Is every mantissa digit of the number zero? -/
def numLexemeIsZero (lex : String) : Bool :=
  ((lex.data.takeWhile (fun c => !(c == 'e' || c == 'E'))).filter Char.isDigit).all
    (fun c => c == '0')

/-- JS truthiness of a decoded JSON value. -/
def jsonTruthy (j : Json) : Bool :=
  match j with
  | .null => false
  | .bool b => b
  | .num lex => !numLexemeIsZero lex
  | .str s => !s.data.isEmpty
  | .arr _ => true
  | .obj _ => true

/-- Set a field of the field list of an object (JS spread `{...point, k: v}`
keeps the position of the key and overwrites its value, else appends). -/
def setField (fs : List (String × Json)) (k : String) (v : Json) : List (String × Json) :=
  if fs.any (fun p => p.1 == k) then
    fs.map (fun p => if p.1 == k then (p.1, v) else p)
  else fs ++ [(k, v)]

/-- The inline enrichment of one model key point (`{...point, videoLink}`):
with a truthy timestamp and video URL the fragment link is attached, else the
existing `videoLink` or the empty string is kept.  A truthy non-string
timestamp would make the JS `.replace` call throw out of this block; it is
modelled as the empty timestamp text, a branch no theorem exercises. -/
def enrichPoint (videoUrl : String) (p : Json) : Json :=
  let ts := jsonFieldOf p "timestamp"
  let truthyTs := match ts with
    | some v => jsonTruthy v
    | none => false
  if truthyTs && !videoUrl.data.isEmpty then
    match p with
    | .obj fs =>
        .obj (setField fs "videoLink"
          (.str (inlineVideoLink videoUrl
            (match ts with
             | some (.str s) => s
             | _ => ""))))
    | _ => p
  else
    match p with
    | .obj fs =>
        .obj (setField fs "videoLink"
          (match jsonFieldOf p "videoLink" with
           | some v => if jsonTruthy v then v else .str ""
           | none => .str ""))
    | _ => p

/-- Index-aware map used to pair fallback titles with parsed blocks. -/
def mapWithIndexF (f : Nat → α → β) : Nat → List α → List β
  | _, [] => []
  | i, a :: as => f i a :: mapWithIndexF f (i + 1) as

def mapWithIndex (f : Nat → α → β) (l : List α) : List β := mapWithIndexF f 0 l

theorem mapWithIndexF_length (f : Nat → α → β) (l : List α) :
    ∀ i, (mapWithIndexF f i l).length = l.length := by
  induction l with
  | nil => intro i; rfl
  | cons a as ih => intro i; simp [mapWithIndexF, ih]

theorem mapWithIndex_length (f : Nat → α → β) (l : List α) :
    (mapWithIndex f l).length = l.length :=
  mapWithIndexF_length f l 0

/-- The flattened transcript sent to the summarizer:
`timestampBlocks.map(b => `${b.timestamp} ${b.content}`).join("\n")`. -/
def flattenTranscript (blocks : List Cue) : String :=
  ⟨joinWith ['\n'] (blocks.map (fun b => b.timestamp.data ++ [' '] ++ b.content.data))⟩

/-- Result of the summarization step. -/
structure SummarizeResult where
  summary : String
  keyPoints : List Json
  tokens : Usage
deriving Repr

/-- The summarization step of `processSingleVttFile` (source lines 592-679)
as a function of the parsed blocks, the resolved video URL and the outcome of
the model call: `none` models a thrown call (usage counters stay zero,
`summary`/`keyPoints` are reset to empty); `some (content, usage)` models a
returned response with the given message content and usage counters.  The
model content is decoded defensively, the decoded key points are enriched
with fragment links, and too-short summaries or fewer than three key points
are backfilled from the transcript. -/
def summarizeStep (blocks : List Cue) (videoUrl : String) (ai : Option (String × Usage)) :
    SummarizeResult :=
  let transcriptText := flattenTranscript blocks
  let tokens := match ai with
    | some p => p.2
    | none => zeroUsage
  let aiParsed : Json := match ai with
    | some p => safeParseModelJson (some p.1)
    | none => .obj []
  let summary0 := match jsonFieldOf aiParsed "summary" with
    | some (.str s) => s
    | _ => ""
  let kp0 := match jsonFieldOf aiParsed "keyPoints" with
    | some (.arr xs) => xs.filter jsonTruthy
    | _ => []
  let kp1 := if 0 < kp0.length then kp0.map (enrichPoint videoUrl) else kp0
  let summary1 :=
    if summary0.data.isEmpty || decide ((jsTrimL summary0.data).length < 20) then
      generateFallbackSummary transcriptText
    else summary0
  let kp2 :=
    if kp1.length < 3 then
      mapWithIndex
        (fun idx title =>
          Json.obj
            [("title", .str title),
             ("timestamp", .str
               (match blocks.get? idx with
                | some b => b.timestamp
                | none => "")),
             ("speaker", .str
               (match blocks.get? idx with
                | some b =>
                    match b.speaker with
                    | some sp => sp
                    | none => ""
                | none => "")),
             ("videoLink", .str
               (match blocks.get? idx with
                | some b =>
                    if !b.timestamp.data.isEmpty && !videoUrl.data.isEmpty then
                      inlineVideoLink videoUrl b.timestamp
                    else ""
                | none => ""))])
        ((deriveKeyPointsFallbackFromText transcriptText).take 8)
    else kp1
  { summary := summary1, keyPoints := kp2, tokens := tokens }

theorem generateFallbackSummary_pos (t : String) : 0 < (generateFallbackSummary t).length := by
  unfold generateFallbackSummary
  by_cases h1 : t.data.isEmpty
  · rw [if_pos h1]; decide
  · rw [if_neg h1]
    by_cases h2 : (fallbackPicked t).isEmpty
    · rw [if_pos h2]; decide
    · rw [if_neg h2]
      show 0 < (fallbackPicked t).length
      have hne : fallbackPicked t ≠ [] := fun hh => h2 (List.isEmpty_iff.mpr hh)
      exact List.length_pos.mpr hne

/-- C5 counterexample: for the non-empty transcript of a block whose content
is `"zzz"`, an undecodable model response leaves the summarizer with zero key
points — the fallback extractor finds no bullet line and no qualifying
sentence — refuting "a key-point sequence of length at least one" for every
non-empty transcript. -/
theorem C5_counterexample :
    (summarizeStep [⟨"00:00:05", "zzz", none⟩] ""
        (some ("not json at all", zeroUsage))).keyPoints.length = 0 ∧
      flattenTranscript [⟨"00:00:05", "zzz", none⟩] ≠ "" := by
  exact ⟨rfl, by decide⟩

/-- C5 amended: with an undecodable model response (the scenario content
`"not json at all"`), the summarization step always returns a summary of
positive length and reports exactly the usage counters of the response (zero when
the response carries none); the key-point sequence has length at least one
whenever the local fallback extractor finds at least one candidate in the
flattened transcript — but not for every non-empty transcript. -/
theorem C5_amended (blocks : List Cue) (videoUrl : String) (u : Usage)
    (h : 1 ≤ (deriveKeyPointsFallbackFromText (flattenTranscript blocks)).length) :
    0 < (summarizeStep blocks videoUrl (some ("not json at all", u))).summary.length ∧
      1 ≤ (summarizeStep blocks videoUrl (some ("not json at all", u))).keyPoints.length ∧
      (summarizeStep blocks videoUrl (some ("not json at all", u))).tokens = u := by
  refine ⟨?_, ?_, rfl⟩
  · have hs : (summarizeStep blocks videoUrl (some ("not json at all", u))).summary =
        generateFallbackSummary (flattenTranscript blocks) := rfl
    rw [hs]
    exact generateFallbackSummary_pos _
  · have hlen : (summarizeStep blocks videoUrl (some ("not json at all", u))).keyPoints.length =
        ((deriveKeyPointsFallbackFromText (flattenTranscript blocks)).take 8).length :=
      mapWithIndex_length _ _
    rw [hlen, List.length_take]
    omega

/-- C5 amended, witness instance. -/
theorem C5_amended_witness :
    0 < (summarizeStep [⟨"00:00:05", "We made a key decision.", some "A"⟩] ""
          (some ("not json at all", zeroUsage))).summary.length ∧
      1 ≤ (summarizeStep [⟨"00:00:05", "We made a key decision.", some "A"⟩] ""
          (some ("not json at all", zeroUsage))).keyPoints.length ∧
      (summarizeStep [⟨"00:00:05", "We made a key decision.", some "A"⟩] ""
          (some ("not json at all", zeroUsage))).tokens = zeroUsage :=
  C5_amended [⟨"00:00:05", "We made a key decision.", some "A"⟩] "" zeroUsage (by decide)

/-! Batch orchestration. -/

/-- Fuel-bounded `chunkArray(array, chunkSize)`: successive slices of length
`chunkSize`.  The JS loop never terminates when `chunkSize` is `0`; that
branch is unreachable under the positivity hypothesis of every theorem and is
mapped to `[]`. -/
def chunkArrayF : Nat → List α → Nat → List (List α)
  | 0, _, _ => []
  | fuel + 1, xs, n =>
      if xs.isEmpty then []
      else if n = 0 then []
      else xs.take n :: chunkArrayF fuel (xs.drop n) n

def chunkArray (xs : List α) (n : Nat) : List (List α) := chunkArrayF (xs.length + 1) xs n

theorem chunkArrayF_join {α : Type} (n : Nat) (hn : 0 < n) :
    ∀ (fuel : Nat) (xs : List α), xs.length < fuel → (chunkArrayF fuel xs n).flatten = xs := by
  intro fuel
  induction fuel with
  | zero => intro xs h; omega
  | succ f ih =>
      intro xs h
      simp only [chunkArrayF]
      by_cases hx : xs.isEmpty
      · rw [if_pos hx, List.flatten_nil]
        exact (List.isEmpty_iff.mp hx).symm
      · have hlen : 0 < xs.length := by
          rcases xs with _ | ⟨a, t⟩
          · simp at hx
          · simp
        rw [if_neg hx, if_neg (by omega : ¬ n = 0), List.flatten_cons,
          ih (xs.drop n) (by rw [List.length_drop]; omega)]
        exact List.take_append_drop n xs

theorem chunkArray_join {α : Type} (xs : List α) (n : Nat) (hn : 0 < n) :
    (chunkArray xs n).flatten = xs :=
  chunkArrayF_join n hn _ xs (by omega)

/-- The fields of a single-file pipeline result that the batch layer reads:
its `success` flag, an optional `fileName` property of its own (the
download-URL-unavailable branch returns one), and an optional `error`. -/
structure FileResult where
  success : Bool
  fileName : Option String
  error : Option String
deriving DecidableEq, Repr

/-- One settled batch item as the batch response carries it. -/
structure BatchItem where
  fileName : String
  success : Bool
  error : Option String
deriving DecidableEq, Repr

/-- Settling one item: the `.then` branch builds
`{fileName, success: r.success === true, ...fileResult}` — the spread lets a
`fileName` carried by the result object override the requested name — and the
`.catch` branch builds `{fileName, success: false, error: message}`. -/
def mkItem (name : String) (outcome : Except String FileResult) : BatchItem :=
  match outcome with
  | .ok r => { fileName := r.fileName.getD name, success := r.success, error := r.error }
  | .error msg => { fileName := name, success := false, error := some msg }

/-- Write each arriving `(index, value)` pair into its slot, modelling how
`Promise.allSettled` stores each settlement at the index of its promise no matter
when it arrives. -/
def placeAll (slots : List (Option α)) : List (Nat × α) → List (Option α)
  | [] => slots
  | p :: rest => placeAll (slots.set p.1 (some p.2)) rest

/-- One concurrency window: the items settle in `arrival` order, each being
placed by index; the settled values are then read out in index order. -/
def settleWindow (proc : String → Except String FileResult) (window : List String)
    (arrival : List Nat) : List BatchItem :=
  (placeAll (List.replicate window.length none)
    (arrival.map (fun i =>
      (i, mkItem (window.getD i "") (proc (window.getD i "")))))).reduceOption

/-- The window loop of `processBatchFiles`, pushing the settled
results in order. -/
def runWindows (proc : String → Except String FileResult) (arrivals : Nat → List Nat) :
    Nat → List (List String) → List BatchItem
  | _, [] => []
  | k, w :: ws => settleWindow proc w (arrivals k) ++ runWindows proc arrivals (k + 1) ws

/-- The batch HTTP response: the status is the literal `200` of the single
return statement in the source, alongside the collected per-item records. -/
structure BatchResponse where
  status : Nat
  items : List BatchItem
deriving Repr

/-- The function `processBatchFiles(context, fileNames, outputFormat)` of the source
modelled over the per-item pipeline outcome `proc` and a per-window arrival
order `arrivals` (the order in which the promises of a window settle). -/
def processBatchFiles (proc : String → Except String FileResult) (fileNames : List String)
    (concurrencyLimit : Nat) (arrivals : Nat → List Nat) : BatchResponse :=
  { status := 200,
    items := runWindows proc arrivals 0 (chunkArray fileNames concurrencyLimit) }

/-- A family of arrival orders is admissible when the order of each window is a
permutation of the index range of that window. -/
def validArrivals (arrivals : Nat → List Nat) (chunks : List (List String)) : Prop :=
  ∀ k, k < chunks.length → (arrivals k).Perm (List.range (chunks.getD k []).length)

instance (arrivals : Nat → List Nat) (chunks : List (List String)) :
    Decidable (validArrivals arrivals chunks) :=
  inferInstanceAs (Decidable (∀ k, k < chunks.length → _))

theorem placeAll_get {α : Type} (g : Nat → α) :
    ∀ (idxs : List Nat) (slots : List (Option α)), idxs.Nodup →
      (∀ i ∈ idxs, i < slots.length) → ∀ j : Nat,
        (placeAll slots (idxs.map (fun i => (i, g i))))[j]? =
          if j ∈ idxs then (if j < slots.length then some (some (g j)) else none)
          else slots[j]? := by
  intro idxs
  induction idxs with
  | nil => intro slots _ _ j; simp [placeAll]
  | cons i rest ih =>
      intro slots hnd hlt j
      simp only [List.map_cons, placeAll]
      rw [ih (slots.set i (some (g i))) hnd.of_cons
        (by intro x hx; rw [List.length_set]; exact hlt x (List.mem_cons_of_mem i hx)) j]
      rw [List.length_set]
      by_cases hjr : j ∈ rest
      · rw [if_pos hjr, if_pos (List.mem_cons_of_mem i hjr)]
      · rw [if_neg hjr]
        by_cases hji : j = i
        · subst hji
          rw [if_pos (List.mem_cons_self j rest)]
          have hlt2 : j < slots.length := hlt j (List.mem_cons_self j rest)
          rw [if_pos hlt2]
          exact List.getElem?_set_eq_of_lt _ hlt2
        · rw [if_neg (by
            intro hmem
            rcases List.mem_cons.mp hmem with h | h
            · exact hji h
            · exact hjr h)]
          exact List.getElem?_set_ne (fun h => hji h.symm)

theorem reduceOption_map_some {α : Type} (l : List α) : (l.map some).reduceOption = l := by
  induction l with
  | nil => rfl
  | cons a t ih => simp [List.reduceOption_cons_of_some, ih]

theorem getD_range_map {α β : Type} (f : α → β) (d : α) :
    ∀ (l : List α), (List.range l.length).map (fun i => f (l.getD i d)) = l.map f := by
  intro l
  induction l with
  | nil => rfl
  | cons a t ih =>
      rw [List.length_cons, List.range_succ_eq_map, List.map_cons, List.map_map]
      have hc : ((fun i => f ((a :: t).getD i d)) ∘ Nat.succ) = fun i => f (t.getD i d) := rfl
      rw [hc, ih]
      rfl

theorem settleWindow_eq (proc : String → Except String FileResult) (window : List String)
    (arrival : List Nat) (h : arrival.Perm (List.range window.length)) :
    settleWindow proc window arrival = window.map (fun nm => mkItem nm (proc nm)) := by
  unfold settleWindow
  have hnd : arrival.Nodup := h.nodup_iff.mpr (List.nodup_range window.length)
  have hmem : ∀ i ∈ arrival, i < window.length := by
    intro i hi
    have := h.mem_iff.mp hi
    exact List.mem_range.mp this
  have hplaced : placeAll (List.replicate window.length none)
      (arrival.map (fun i => (i, mkItem (window.getD i "") (proc (window.getD i ""))))) =
      (List.range window.length).map
        (fun i => some (mkItem (window.getD i "") (proc (window.getD i "")))) := by
    apply List.ext_getElem?
    intro j
    rw [placeAll_get (fun i => mkItem (window.getD i "") (proc (window.getD i ""))) arrival
      (List.replicate window.length none) hnd
      (by intro x hx; rw [List.length_replicate]; exact hmem x hx) j]
    rw [List.length_replicate]
    by_cases hj : j < window.length
    · rw [if_pos (h.mem_iff.mpr (List.mem_range.mpr hj)), if_pos hj]
      rw [List.getElem?_map, List.getElem?_range hj]
      rfl
    · rw [if_neg (fun hmem2 => hj (hmem _ hmem2)), List.getElem?_replicate]
      rw [if_neg hj, List.getElem?_map,
        List.getElem?_eq_none (by simpa using Nat.le_of_not_lt hj)]
      rfl
  rw [hplaced]
  have hsome : (List.range window.length).map
      (fun i => some (mkItem (window.getD i "") (proc (window.getD i "")))) =
      ((List.range window.length).map
        (fun i => mkItem (window.getD i "") (proc (window.getD i "")))).map some := by
    rw [List.map_map]; rfl
  rw [hsome, reduceOption_map_some]
  exact getD_range_map (fun nm => mkItem nm (proc nm)) "" window

theorem runWindows_eq (proc : String → Except String FileResult) (arrivals : Nat → List Nat) :
    ∀ (chunks : List (List String)) (k : Nat),
      (∀ j, j < chunks.length → (arrivals (k + j)).Perm (List.range (chunks.getD j []).length)) →
      runWindows proc arrivals k chunks = (chunks.flatten).map (fun nm => mkItem nm (proc nm)) := by
  intro chunks
  induction chunks with
  | nil => intro k _; rfl
  | cons w ws ih =>
      intro k hp
      rw [runWindows, List.flatten_cons, List.map_append]
      have h0 := hp 0 (by simp)
      simp only [Nat.add_zero, List.getD_cons_zero] at h0
      rw [settleWindow_eq proc w (arrivals k) h0]
      rw [ih (k + 1) (by
        intro j hj
        have := hp (j + 1) (by simpa using Nat.succ_lt_succ hj)
        simpa [Nat.add_assoc, Nat.add_comm 1 j] using this)]

/-- The full characterisation of the batch items: one per input, in input
order, each settled from its own pipeline outcome. -/
theorem processBatchFiles_items (proc : String → Except String FileResult)
    (names : List String) (limit : Nat) (arrivals : Nat → List Nat) (hl : 0 < limit)
    (ha : validArrivals arrivals (chunkArray names limit)) :
    (processBatchFiles proc names limit arrivals).items =
      names.map (fun nm => mkItem nm (proc nm)) := by
  show runWindows proc arrivals 0 (chunkArray names limit) = _
  rw [runWindows_eq proc arrivals (chunkArray names limit) 0 (by
    intro j hj
    simpa using ha j hj)]
  rw [chunkArray_join names limit hl]

/-- C6 amended: the batch produces exactly one result per input and places
each result at the index of its input regardless of the arrival (completion) order
within a window; the i-th item is settled from the outcome of the i-th input itself —
its `fileName` is the name of the i-th input unless the result object of the pipeline
itself carries a `fileName` (the actual name of the matched file, from the
download-URL-unavailable branch), which overrides the requested name through
the object spread. -/
theorem C6_amended (proc : String → Except String FileResult) (names : List String)
    (limit : Nat) (arrivals : Nat → List Nat) (hl : 0 < limit)
    (ha : validArrivals arrivals (chunkArray names limit)) :
    (processBatchFiles proc names limit arrivals).items.length = names.length ∧
      ∀ i : Nat, i < names.length →
        (processBatchFiles proc names limit arrivals).items[i]? =
          some (mkItem (names.getD i "") (proc (names.getD i ""))) := by
  have h := processBatchFiles_items proc names limit arrivals hl ha
  constructor
  · rw [h, List.length_map]
  · intro i hi
    rw [h, List.getElem?_map, List.getElem?_eq_getElem hi]
    rw [List.getD_eq_getElem names "" hi]
    rfl

/-- Pipeline outcome for the C6 counterexample: the download-URL-unavailable
branch of the single-file pipeline returns a result object that carries the
actual name of the matched file in its own `fileName` property. -/
def procC6 : String → Except String FileResult :=
  fun _ => .ok ⟨false, some "meeting-recording.vtt",
    some "Download URL not available for the selected file."⟩

def arrivalsC6 : Nat → List Nat := fun _ => [0]

/-- C6 counterexample: when the pipeline result carries its own `fileName`
(the 502 download-URL branch does, with the actual name of the matched file), the
object spread overrides the requested name, so the i-th item does not carry
the file name of the i-th input. -/
theorem C6_counterexample :
    ((processBatchFiles procC6 ["Meeting.VTT"] 1 arrivalsC6).items.map
        (fun it => it.fileName)) = ["meeting-recording.vtt"] ∧
      ("meeting-recording.vtt" : String) ≠ "Meeting.VTT" := by
  decide

/-- Pipeline outcome used by the batch witnesses: `bad.vtt` throws, anything
else succeeds. -/
def procW : String → Except String FileResult :=
  fun nm => if nm = "bad.vtt" then .error "boom" else .ok ⟨true, none, none⟩

/-- Arrival order used by the batch witnesses: the second promise of the window
settles first. -/
def arrW : Nat → List Nat := fun _ => [1, 0]

/-- C6 amended, witness instance: a two-item window settling in reversed
order still yields one item per input, placed by index. -/
theorem C6_amended_witness :
    (processBatchFiles procW ["a.vtt", "bad.vtt"] 3 arrW).items.length =
        (["a.vtt", "bad.vtt"] : List String).length ∧
      (processBatchFiles procW ["a.vtt", "bad.vtt"] 3 arrW).items[0]? =
        some (mkItem ((["a.vtt", "bad.vtt"] : List String).getD 0 "")
          (procW ((["a.vtt", "bad.vtt"] : List String).getD 0 ""))) :=
  ⟨(C6_amended procW ["a.vtt", "bad.vtt"] 3 arrW (by decide) (by decide)).1,
   (C6_amended procW ["a.vtt", "bad.vtt"] 3 arrW (by decide) (by decide)).2 0 (by decide)⟩

/-- C9: per-item failures are data, not aborts: the batch response status is
the literal 200 whatever the outcomes; an item whose pipeline call throws is
converted into a record with `success = false` and the error message
populated; an item whose pipeline call returns an error result keeps the
`success` flag of that result and `error` field (every failure return of
`processSingleVttFile` populates `error`). -/
theorem C9_isolation (proc : String → Except String FileResult) (names : List String)
    (limit : Nat) (arrivals : Nat → List Nat) (hl : 0 < limit)
    (ha : validArrivals arrivals (chunkArray names limit)) :
    (processBatchFiles proc names limit arrivals).status = 200 ∧
      (∀ i msg, i < names.length → proc (names.getD i "") = .error msg →
        ∃ it : BatchItem,
          (processBatchFiles proc names limit arrivals).items[i]? = some it ∧
            it.success = false ∧ it.error = some msg) ∧
      (∀ i r, i < names.length → proc (names.getD i "") = .ok r →
        ∃ it : BatchItem,
          (processBatchFiles proc names limit arrivals).items[i]? = some it ∧
            it.success = r.success ∧ it.error = r.error) := by
  have h := processBatchFiles_items proc names limit arrivals hl ha
  refine ⟨rfl, ?_, ?_⟩
  · intro i msg hi hp
    rw [List.getD_eq_getElem names "" hi] at hp
    rw [h, List.getElem?_map, List.getElem?_eq_getElem hi]
    exact ⟨mkItem names[i] (proc names[i]), rfl, by simp [mkItem, hp]⟩
  · intro i r hi hp
    rw [List.getD_eq_getElem names "" hi] at hp
    rw [h, List.getElem?_map, List.getElem?_eq_getElem hi]
    exact ⟨mkItem names[i] (proc names[i]), rfl, by simp [mkItem, hp]⟩

/-- C9 witness instance: a batch with a throwing item still returns status
200 and carries the failure as a populated item record. -/
theorem C9_isolation_witness :
    (processBatchFiles procW ["a.vtt", "bad.vtt"] 3 arrW).status = 200 ∧
      ∃ it : BatchItem,
        (processBatchFiles procW ["a.vtt", "bad.vtt"] 3 arrW).items[1]? = some it ∧
          it.success = false ∧ it.error = some "boom" :=
  ⟨(C9_isolation procW ["a.vtt", "bad.vtt"] 3 arrW (by decide) (by decide)).1,
   (C9_isolation procW ["a.vtt", "bad.vtt"] 3 arrW (by decide) (by decide)).2.1 1 "boom"
     (by decide) rfl⟩

end VttProc
